import Mathlib

/-!
Verification of the export-service PDF rendering core.

Shallow embedding of `src/infrastructure/exporters/pdf.rs` and
`src/domain/models.rs`.  Millimetre/point geometry (Rust `f32`) is modelled
with exact rational arithmetic.  The layout constants (page sizes, margins,
spacings, font sizes) are small integers, exactly representable in `f32`
with exact sums and differences, so the cursor and threshold comparisons
agree with the `f32` computation; the character-budget formula uses the
decimal constants 2.83465 and 0.6, whose `f32` rounding shifts the quotient
by under 1e-6 — far from the integer boundary at every point evaluated
below — so the floored results also agree.  Strings are modelled as Lean
`String`/`List Char`; Rust `str::chars` is `String.toList`.
-/

namespace ExportService

-- ============================================================================
-- Text formatter: sanitize (LatinTextFormatter::sanitize, pdf.rs lines 424-444)
-- ============================================================================

/-- One arm of the Rust `match` in `LatinTextFormatter::sanitize`, applied to a
single character.  The arms are tried in source order: ASCII printable, the
Thai block, smart double quotes, smart single quotes, en/em dashes, the
horizontal-ellipsis character, ASCII control characters, and finally a
catch-all that keeps the character. -/
def sanitize_char (c : Char) : Char :=
  if 0x20 ≤ c.toNat ∧ c.toNat ≤ 0x7E then c
  else if 0xE00 ≤ c.toNat ∧ c.toNat ≤ 0xE7F then c
  else if c.toNat = 0x201C ∨ c.toNat = 0x201D then '"'
  else if c.toNat = 0x2018 ∨ c.toNat = 0x2019 then Char.ofNat 0x27
  else if c.toNat = 0x2013 ∨ c.toNat = 0x2014 then '-'
  else if c.toNat = 0x2026 then '.'
  else if c.toNat ≤ 0x1F ∨ c.toNat = 0x7F then ' '
  else c

/-- `LatinTextFormatter::sanitize`: `text.chars().map(..).collect()`. -/
def sanitize (text : String) : String :=
  (text.toList.map sanitize_char).asString

-- ============================================================================
-- Model of textwrap::wrap (dependency of LatinTextFormatter::truncate_with_textwrap)
-- ============================================================================

/-- Display width of a character as used by the `textwrap` crate (via the
`unicode-width` crate, a default feature).  The model returns 1 exactly on
ranges that `unicode-width` certainly measures as one column — printable
ASCII and the spacing (non-combining) part of the Thai block this repository
supports — and 0 everywhere else.  The 0 side is exact for the characters
`unicode-width` measures as zero columns: control characters, and Unicode
nonspacing/enclosing/format marks, among them the combining diacritical
marks U+0300–U+036F and the Thai combining vowels and tone marks U+0E31,
U+0E34–U+0E3A and U+0E47–U+0E4E (all preserved by this repository's
sanitizer).  For the remaining code points (width-one characters of other
scripts, East-Asian wide characters of width two) the model is deliberately
conservative rather than wrong in the unsound direction: `char_width c = 1`
always certifies a real display width of one, which is the direction the
budget theorem below needs, and no theorem in this file evaluates `wrap` on
a character outside the exact fragment. -/
def char_width (c : Char) : Nat :=
  if 0x20 ≤ c.toNat ∧ c.toNat ≤ 0x7E then 1
  else if 0xE01 ≤ c.toNat ∧ c.toNat ≤ 0xE30 then 1
  else if c.toNat = 0xE32 ∨ c.toNat = 0xE33 then 1
  else if 0xE3F ≤ c.toNat ∧ c.toNat ≤ 0xE46 then 1
  else if 0xE4F ≤ c.toNat ∧ c.toNat ≤ 0xE5B then 1
  else 0

def word_width (w : List Char) : Nat := (w.map char_width).sum

/-- Rust `str::split(sep)` on a character list: `"a,,b"` → `["a","","b"]`,
`""` → `[""]`. -/
def split_ch (sep : Char) : List Char → List (List Char)
  | [] => [[]]
  | c :: rest =>
    match split_ch sep rest with
    | [] => [[c]]
    | w :: ws => if c = sep then [] :: w :: ws else (c :: w) :: ws

/-- Greedy chunk extraction used by textwrap's `break_words` (on by default):
starting from `acc`, keep taking characters while the accumulated display
width stays within `w`. -/
def split_chunk (w : Nat) (acc : List Char) : List Char → List Char × List Char
  | [] => (acc, [])
  | c :: rest =>
    if word_width (acc ++ [c]) ≤ w then split_chunk w (acc ++ [c]) rest
    else (acc, c :: rest)

def chunk_go (w : Nat) : Nat → List Char → List (List Char)
  | _, [] => []
  | 0, rest => [rest]
  | fuel + 1, c :: rest =>
    let p := split_chunk w [c] rest
    p.1 :: chunk_go w fuel p.2

/-- Break one word into display-width-`w` chunks (textwrap `break_words`).
A word that already fits is returned unchanged; an empty word produces no
chunks.  The fuel equals the word length; each step consumes at least one
character, so the fuel never runs out. -/
def chunk_word (w : Nat) (word : List Char) : List (List Char) :=
  chunk_go w word.length word

/-- Display width of a line given as its list of words, counting one column
for each inter-word space. -/
def line_width (ws : List (List Char)) : Nat :=
  (ws.map word_width).sum + (ws.length - 1)

/-- Greedy first-fit arrangement of words into lines of display width at most
`w`; `cur` is the (nonempty) line under construction. -/
def fill_lines (w : Nat) (cur : List (List Char)) :
    List (List Char) → List (List (List Char))
  | [] => [cur]
  | word :: rest =>
    if line_width (cur ++ [word]) ≤ w then fill_lines w (cur ++ [word]) rest
    else cur :: fill_lines w [word] rest

def wrap_words (w : Nat) : List (List Char) → List (List (List Char))
  | [] => [[]]
  | word :: rest => fill_lines w [word] rest

/-- Join the words of one line with single spaces (textwrap rebuilds a line
from its words with their separating whitespace). -/
def render_line : List (List Char) → List Char
  | [] => []
  | [w] => w
  | w :: ws => w ++ ' ' :: render_line ws

/-- Model of `textwrap::wrap(text, Options::new(w).word_splitter(NoHyphenation))`
with the crate's default features, restricted to the fragment this code
exercises: a line feed is a mandatory break (UAX#14), words are separated by
ASCII spaces (runs of spaces are normalised to one), words wider than the
line are broken greedily at character boundaries (`break_words` default), and
lines are filled first-fit.  The `NoHyphenation` splitter adds no split
points, so it contributes nothing beyond the above.  The crate's default
arrangement is optimal-fit rather than first-fit; both respect the width
bound proved below, and on every concrete input evaluated in this file the
two arrangements coincide (the alternatives are either infeasible or have
strictly larger cost). -/
def wrap (w : Nat) (text : List Char) : List (List Char) :=
  (split_ch (Char.ofNat 10) text).flatMap fun line =>
    (wrap_words w ((split_ch ' ' line).flatMap (chunk_word w))).map render_line

/-- Rust White_Space property for the characters relevant here
(`str::trim_end`). -/
def is_rust_whitespace (c : Char) : Bool :=
  (0x9 ≤ c.toNat ∧ c.toNat ≤ 0xD) ∨ c.toNat = 0x20 ∨ c.toNat = 0x85 ∨
    c.toNat = 0xA0 ∨ c.toNat = 0x1680 ∨ (0x2000 ≤ c.toNat ∧ c.toNat ≤ 0x200A) ∨
    c.toNat = 0x2028 ∨ c.toNat = 0x2029 ∨ c.toNat = 0x202F ∨ c.toNat = 0x205F ∨
    c.toNat = 0x3000

/-- Rust `str::trim_end`. -/
def trim_end (l : List Char) : List Char :=
  (l.reverse.dropWhile is_rust_whitespace).reverse

-- ============================================================================
-- Text formatter: truncation (LatinTextFormatter, pdf.rs lines 311-467)
-- ============================================================================

/-- `TruncationMode` from pdf.rs. -/
inductive TruncationMode
  | Simple
  | WordBoundary
deriving DecidableEq

/-- `LatinTextFormatter` configuration fields. -/
structure LatinTextFormatter where
  max_chars_limit : Nat
  min_chars_limit : Nat
  truncation_mode : TruncationMode
  ellipsis : String
deriving DecidableEq

/-- `LatinTextFormatter::new()`. -/
def LatinTextFormatter.new : LatinTextFormatter :=
  { max_chars_limit := 50, min_chars_limit := 5,
    truncation_mode := TruncationMode.WordBoundary, ellipsis := "..." }

/-- `LatinTextFormatter::with_truncation_mode`. -/
def LatinTextFormatter.with_truncation_mode (f : LatinTextFormatter)
    (mode : TruncationMode) : LatinTextFormatter :=
  { f with truncation_mode := mode }

/-- `LatinTextFormatter::truncate_with_textwrap` (pdf.rs lines 368-400). -/
def LatinTextFormatter.truncate_with_textwrap (f : LatinTextFormatter)
    (text : String) (max_chars : Nat) : String :=
  let ellipsis_len := f.ellipsis.toList.length
  if max_chars ≤ ellipsis_len then (text.toList.take max_chars).asString
  else
    let available_width := max_chars - ellipsis_len
    if available_width = 0 then f.ellipsis
    else
      let wrapped := wrap available_width text.toList
      if wrapped = [] then f.ellipsis
      else
        let first_line := trim_end (wrapped.headD [])
        if 1 < wrapped.length ∨ first_line.length < text.toList.length then
          (first_line ++ f.ellipsis.toList).asString
        else first_line.asString

/-- `LatinTextFormatter::truncate_simple` (pdf.rs lines 403-414). -/
def LatinTextFormatter.truncate_simple (f : LatinTextFormatter)
    (text : String) (max_chars : Nat) : String :=
  let ellipsis_len := f.ellipsis.toList.length
  if max_chars ≤ ellipsis_len then (text.toList.take max_chars).asString
  else
    let truncate_at := max_chars - ellipsis_len
    (text.toList.take truncate_at ++ f.ellipsis.toList).asString

/-- `<LatinTextFormatter as TextFormatter>::truncate` (pdf.rs lines 446-459). -/
def LatinTextFormatter.truncate (f : LatinTextFormatter) (text : String)
    (max_chars : Nat) : String :=
  if text.toList.length ≤ max_chars then text
  else
    match f.truncation_mode with
    | TruncationMode.Simple => f.truncate_simple text max_chars
    | TruncationMode.WordBoundary => f.truncate_with_textwrap text max_chars

/-- `<LatinTextFormatter as TextFormatter>::max_chars_for_width`
(pdf.rs lines 461-466).  The Rust `as usize` cast of a non-negative `f32`
truncates toward zero, i.e. takes the floor; for negative values both the
cast and `Int.toNat ∘ Int.floor` give `0`. -/
def LatinTextFormatter.max_chars_for_width (f : LatinTextFormatter)
    (width_mm font_size : ℚ) : Nat :=
  let width_pt := width_mm * 2.83465
  let avg_char_width := font_size * 0.6
  let max_chars := ⌊width_pt / avg_char_width⌋.toNat
  min (max max_chars f.min_chars_limit) f.max_chars_limit

-- ============================================================================
-- Domain models (domain/models.rs)
-- ============================================================================

/-- `ColumnType` (models.rs lines 6-13). -/
inductive ColumnType
  | Text
  | Number
  | Currency
  | Percentage
  | Date
deriving DecidableEq

/-- `ColumnType::is_right_aligned` (models.rs lines 15-20). -/
def ColumnType.is_right_aligned : ColumnType → Bool
  | ColumnType.Number => true
  | ColumnType.Currency => true
  | ColumnType.Percentage => true
  | _ => false

/-- `ColumnMetadata` (models.rs lines 22-30). -/
structure ColumnMetadata where
  column_type : ColumnType
  width_hint : Option ℚ
deriving DecidableEq

def ColumnMetadata.number : ColumnMetadata := ⟨ColumnType.Number, none⟩

def ColumnMetadata.text : ColumnMetadata := ⟨ColumnType.Text, none⟩

/-- `ExportData` (models.rs lines 59-70), restricted to the fields the PDF
exporter reads. -/
structure ExportData where
  title : String
  headers : List String
  rows : List (List String)
  column_metadata : Option (List ColumnMetadata)

-- ============================================================================
-- Layout configuration (pdf.rs lines 117-267), lengths in mm as rationals
-- ============================================================================

/-- `PageSize` (pdf.rs lines 118-144). -/
structure PageSize where
  width : ℚ
  height : ℚ
deriving DecidableEq

def PageSize.a4 : PageSize := ⟨210, 297⟩

/-- `Margins` (pdf.rs lines 146-164). -/
structure Margins where
  top : ℚ
  bottom : ℚ
  left : ℚ
  right : ℚ
deriving DecidableEq

def Margins.default : Margins := ⟨20, 20, 20, 20⟩

/-- `Typography` (pdf.rs lines 166-186). -/
structure Typography where
  title_size : ℚ
  header_size : ℚ
  body_size : ℚ
  page_number_size : ℚ
  line_height : ℚ
deriving DecidableEq

def Typography.default : Typography := ⟨16, 10, 10, 8, 7⟩

/-- `Spacing` (pdf.rs lines 188-216). -/
structure Spacing where
  title_bottom : ℚ
  header_line_offset : ℚ
  header_to_content : ℚ
  cell_padding : ℚ
  page_number_area : ℚ
  content_top_offset : ℚ
deriving DecidableEq

def Spacing.default : Spacing := ⟨15, 4, 10, 2, 20, 10⟩

/-- `PdfLayoutConfig` (pdf.rs lines 218-240). -/
structure PdfLayoutConfig where
  page_size : PageSize
  margins : Margins
  typography : Typography
  spacing : Spacing
  min_column_width : ℚ
  max_chars_per_cell : Nat
deriving DecidableEq

def PdfLayoutConfig.default : PdfLayoutConfig :=
  { page_size := PageSize.a4, margins := Margins.default,
    typography := Typography.default, spacing := Spacing.default,
    min_column_width := 28, max_chars_per_cell := 50 }

/-- `PdfLayoutConfig::content_width` (pdf.rs lines 243-246). -/
def PdfLayoutConfig.content_width (c : PdfLayoutConfig) : ℚ :=
  c.page_size.width - c.margins.left - c.margins.right

/-- `PdfLayoutConfig::calculate_column_width` (pdf.rs lines 248-256). -/
def PdfLayoutConfig.calculate_column_width (c : PdfLayoutConfig)
    (num_columns : Nat) : ℚ :=
  if num_columns = 0 then c.min_column_width
  else c.content_width / (num_columns : ℚ)

/-- `PdfLayoutConfig::content_start_y` (pdf.rs lines 258-261). -/
def PdfLayoutConfig.content_start_y (c : PdfLayoutConfig) : ℚ :=
  c.page_size.height - c.margins.top - c.spacing.content_top_offset

/-- `PdfLayoutConfig::effective_bottom` (pdf.rs lines 263-266). -/
def PdfLayoutConfig.effective_bottom (c : PdfLayoutConfig) : ℚ :=
  c.margins.bottom + c.spacing.page_number_area

-- ============================================================================
-- Renderer (pdf.rs lines 473-727), modelled as a stream of drawing events
-- ============================================================================

/-- Observable effect of one `printpdf` layer call made by the renderer:
a text placement (`write_text` with its cursor position, font size and font
choice), the header separator line, the page-number footer, or the opening of
a new page. -/
inductive RenderEvent
  | text_ev (content : String) (x y : ℚ) (font_size : ℚ) (bold : Bool)
  | line_ev (y : ℚ)
  | footer_ev (page_num : Nat) (x y : ℚ)
  | new_page
deriving DecidableEq

/-- `PageState` (pdf.rs lines 473-477). -/
structure PageState where
  current_y : ℚ
  page_number : Nat
deriving DecidableEq

/-- `ColumnBounds` (pdf.rs lines 479-483). -/
structure ColumnBounds where
  left : ℚ
  right : ℚ

/-- `PdfRenderer` (pdf.rs lines 485-493): the document handle and font
references carry no layout information and are omitted; `column_width` is
computed at construction from the column count exactly as in
`PdfRenderer::with_font_config` (line 523). -/
structure PdfRenderer where
  config : PdfLayoutConfig
  text_formatter : LatinTextFormatter
  column_width : ℚ

/-- Renderer construction (`PdfRenderer::new`/`with_font_config`). -/
def PdfRenderer.new (config : PdfLayoutConfig) (fmt : LatinTextFormatter)
    (num_columns : Nat) : PdfRenderer :=
  ⟨config, fmt, config.calculate_column_width num_columns⟩

/-- `PdfRenderer::render_title` (pdf.rs lines 551-559): events plus returned
cursor. -/
def PdfRenderer.render_title (r : PdfRenderer) (title : String) (y : ℚ) :
    List RenderEvent × ℚ :=
  ([RenderEvent.text_ev (sanitize title) r.config.margins.left y
      r.config.typography.title_size true],
   y - r.config.spacing.title_bottom)

/-- `PdfRenderer::render_headers` (pdf.rs lines 561-584): one text event per
header (sanitized, never truncated, always left-aligned), the separator line,
and the returned cursor. -/
def PdfRenderer.render_headers (r : PdfRenderer) (headers : List String)
    (y : ℚ) : List RenderEvent × ℚ :=
  ((headers.enum.map fun p =>
      RenderEvent.text_ev (sanitize p.2)
        (r.config.margins.left + r.column_width * (p.1 : ℚ)) y
        r.config.typography.header_size true) ++
    [RenderEvent.line_ev (y - r.config.spacing.header_line_offset)],
   y - r.config.spacing.header_to_content)

/-- Keyword list of `PdfRenderer::is_numeric_header` (pdf.rs lines 587-599). -/
def numeric_keywords : List String :=
  ["amount", "total", "sum", "count", "qty", "quantity",
   "price", "cost", "rate", "value", "number", "num", "#",
   "balance", "credit", "debit", "fee", "tax", "discount",
   "percent", "%", "score", "points", "weight", "height",
   "width", "length", "size", "age", "year", "month", "day",
   "จำนวน", "ราคา", "รวม", "ยอด", "เงิน", "บาท"]

/-- Character-list prefix test (`a` is a prefix of `b`). -/
def chars_pre : List Char → List Char → Bool
  | [], _ => true
  | _ :: _, [] => false
  | a :: as, b :: bs => a = b && chars_pre as bs

/-- Rust `str::contains(needle)` on character lists. -/
def contains_sub (hay needle : List Char) : Bool :=
  match hay with
  | [] => needle.isEmpty
  | _ :: rest => chars_pre needle hay || contains_sub rest needle

/-- `PdfRenderer::is_numeric_header`: lowercase the header and test substring
containment of each keyword.  `String.toLower` lowercases ASCII letters,
matching Rust `to_lowercase` on the ASCII and Thai text this repository
feeds it. -/
def is_numeric_header (header : String) : Bool :=
  numeric_keywords.any fun kw => contains_sub header.toLower.toList kw.toList

/-- `PdfRenderer::estimate_text_width` (pdf.rs lines 602-609). -/
def estimate_text_width (text : String) (font_size : ℚ) : ℚ :=
  (text.toList.length : ℚ) * (font_size * 0.5) * 0.3528

/-- `PdfRenderer::calculate_column_bounds` (pdf.rs lines 631-637). -/
def PdfRenderer.calculate_column_bounds (r : PdfRenderer) (col_idx : Nat) :
    ColumnBounds :=
  let content_right := r.config.page_size.width - r.config.margins.right
  ⟨r.config.margins.left + r.column_width * (col_idx : ℚ),
   min (r.config.margins.left + r.column_width * ((col_idx : ℚ) + 1)) content_right⟩

/-- `PdfRenderer::should_right_align` (pdf.rs lines 639-657). -/
def PdfRenderer.should_right_align (_r : PdfRenderer) (col_idx : Nat)
    (headers : List String) (column_metadata : Option (List ColumnMetadata)) :
    Bool :=
  match column_metadata with
  | some metadata =>
    match metadata[col_idx]? with
    | some col_meta => col_meta.column_type.is_right_aligned
    | none => (headers[col_idx]?.map is_numeric_header).getD false
  | none => (headers[col_idx]?.map is_numeric_header).getD false

/-- `PdfRenderer::calculate_text_position` (pdf.rs lines 659-673). -/
def PdfRenderer.calculate_text_position (r : PdfRenderer) (text : String)
    (bounds : ColumnBounds) (right_align : Bool) : ℚ :=
  if right_align then
    let text_width := estimate_text_width text r.config.typography.body_size
    let right_aligned_x := bounds.right - text_width - r.config.spacing.cell_padding
    max right_aligned_x bounds.left
  else bounds.left

/-- `PdfRenderer::prepare_cell_text` (pdf.rs lines 675-682): truncate to the
budget derived from the column width and body size, then sanitize. -/
def PdfRenderer.prepare_cell_text (r : PdfRenderer) (cell : String) : String :=
  let max_chars := r.text_formatter.max_chars_for_width r.column_width
    r.config.typography.body_size
  let truncated := r.text_formatter.truncate cell max_chars
  sanitize truncated

/-- `PdfRenderer::render_row` (pdf.rs lines 693-709): one text event per cell
at the shared cursor `y`. -/
def PdfRenderer.render_row (r : PdfRenderer) (row : List String)
    (headers : List String) (column_metadata : Option (List ColumnMetadata))
    (y : ℚ) : List RenderEvent :=
  row.enum.map fun p =>
    let sanitized := r.prepare_cell_text p.2
    let bounds := r.calculate_column_bounds p.1
    let right_align := r.should_right_align p.1 headers column_metadata
    let x_pos := r.calculate_text_position sanitized bounds right_align
    RenderEvent.text_ev sanitized x_pos y r.config.typography.body_size false

/-- `PdfRenderer::render_page_number` (pdf.rs lines 711-720); the written text
is `"Page {page_num}"`. -/
def PdfRenderer.render_page_number (r : PdfRenderer) (page_num : Nat) :
    RenderEvent :=
  RenderEvent.footer_ev page_num (r.config.page_size.width / 2 - 10)
    r.config.margins.bottom

-- ============================================================================
-- Exporter (PdfExporter::export, pdf.rs lines 783-834)
-- ============================================================================

/-- `PdfExporter` (pdf.rs lines 734-737) with the built-in formatter. -/
structure PdfExporter where
  config : PdfLayoutConfig
  text_formatter : LatinTextFormatter

/-- `PdfExporter::new()`. -/
def PdfExporter.new : PdfExporter :=
  ⟨PdfLayoutConfig.default, LatinTextFormatter.new⟩

/-- Body of the per-row loop in `PdfExporter::export` (pdf.rs lines 808-828):
if the cursor has crossed the effective bottom margin, write the footer of the
current page, open a new page, re-render the headers (when non-empty) and
reset the cursor; then render the row at the resulting cursor and decrement
the cursor by one line height. -/
def process_row (r : PdfRenderer) (headers : List String)
    (column_metadata : Option (List ColumnMetadata))
    (acc : List RenderEvent × PageState) (row : List String) :
    List RenderEvent × PageState :=
  let evs := acc.1
  let st := acc.2
  if st.current_y < r.config.effective_bottom then
    let evs := evs ++ [r.render_page_number st.page_number, RenderEvent.new_page]
    let y := r.config.content_start_y
    let hy : List RenderEvent × ℚ :=
      if headers ≠ [] then r.render_headers headers y else ([], y)
    (evs ++ hy.1 ++ r.render_row row headers column_metadata hy.2,
     ⟨hy.2 - r.config.typography.line_height, st.page_number + 1⟩)
  else
    (evs ++ r.render_row row headers column_metadata st.current_y,
     ⟨st.current_y - r.config.typography.line_height, st.page_number⟩)

/-- `PdfExporter::export` (pdf.rs lines 784-833): the full event stream and
the final page state.  Title on page one, headers on page one when non-empty,
then the paginated row loop, then the final page-number footer. -/
def PdfExporter.export_run (e : PdfExporter) (data : ExportData) :
    List RenderEvent × PageState :=
  let r := PdfRenderer.new e.config e.text_formatter data.headers.length
  let y0 := e.config.content_start_y
  let t := r.render_title data.title y0
  let h : List RenderEvent × ℚ :=
    if data.headers ≠ [] then r.render_headers data.headers t.2 else ([], t.2)
  let init : List RenderEvent × PageState := (t.1 ++ h.1, ⟨h.2, 1⟩)
  let res := data.rows.foldl (process_row r data.headers data.column_metadata) init
  (res.1 ++ [r.render_page_number res.2.page_number], res.2)

/-- Event stream of a full export. -/
def PdfExporter.export (e : PdfExporter) (data : ExportData) :
    List RenderEvent :=
  (e.export_run data).1

-- ============================================================================
-- Observables over event streams
-- ============================================================================

/-- Sequence of page numbers written as footers, in emission order. -/
def footers (evs : List RenderEvent) : List Nat :=
  evs.filterMap fun e =>
    match e with
    | RenderEvent.footer_ev n _ _ => some n
    | _ => none

/-- Text contents of the text events, in emission order. -/
def texts_of (evs : List RenderEvent) : List String :=
  evs.filterMap fun e =>
    match e with
    | RenderEvent.text_ev content _ _ _ _ => some content
    | _ => none

/-- Number of page openings in the stream. -/
def new_page_count (evs : List RenderEvent) : Nat :=
  evs.countP fun e =>
    match e with
    | RenderEvent.new_page => true
    | _ => false

/-- Cursor position after a page break of the row loop: the content-start Y,
lowered by the header block when headers are re-rendered. -/
def break_y (r : PdfRenderer) (headers : List String) : ℚ :=
  if headers ≠ [] then (r.render_headers headers r.config.content_start_y).2
  else r.config.content_start_y

/-- Cursor position at which the current row of a `process_row` step is
placed: after the page break when one fires, otherwise the incoming cursor. -/
def placement_y (r : PdfRenderer) (headers : List String) (st : PageState) : ℚ :=
  if st.current_y < r.config.effective_bottom then break_y r headers
  else st.current_y

-- ============================================================================
-- Theorems
-- ============================================================================

theorem toList_asString (l : List Char) : (List.asString l).toList = l := rfl

theorem sanitize_char_ascii (c : Char) (h1 : 0x20 ≤ c.toNat ∧ c.toNat ≤ 0x7E) :
    sanitize_char c = c := by
  unfold sanitize_char; rw [if_pos h1]

theorem sanitize_char_thai (c : Char) (h1 : ¬(0x20 ≤ c.toNat ∧ c.toNat ≤ 0x7E))
    (h2 : 0xE00 ≤ c.toNat ∧ c.toNat ≤ 0xE7F) : sanitize_char c = c := by
  unfold sanitize_char; rw [if_neg h1, if_pos h2]

theorem sanitize_char_dquote (c : Char) (h1 : ¬(0x20 ≤ c.toNat ∧ c.toNat ≤ 0x7E))
    (h2 : ¬(0xE00 ≤ c.toNat ∧ c.toNat ≤ 0xE7F)) (h3 : c.toNat = 0x201C ∨ c.toNat = 0x201D) :
    sanitize_char c = '"' := by
  unfold sanitize_char; rw [if_neg h1, if_neg h2, if_pos h3]

theorem sanitize_char_squote (c : Char) (h1 : ¬(0x20 ≤ c.toNat ∧ c.toNat ≤ 0x7E))
    (h2 : ¬(0xE00 ≤ c.toNat ∧ c.toNat ≤ 0xE7F)) (h3 : ¬(c.toNat = 0x201C ∨ c.toNat = 0x201D))
    (h4 : c.toNat = 0x2018 ∨ c.toNat = 0x2019) : sanitize_char c = Char.ofNat 0x27 := by
  unfold sanitize_char; rw [if_neg h1, if_neg h2, if_neg h3, if_pos h4]

theorem sanitize_char_dash (c : Char) (h1 : ¬(0x20 ≤ c.toNat ∧ c.toNat ≤ 0x7E))
    (h2 : ¬(0xE00 ≤ c.toNat ∧ c.toNat ≤ 0xE7F)) (h3 : ¬(c.toNat = 0x201C ∨ c.toNat = 0x201D))
    (h4 : ¬(c.toNat = 0x2018 ∨ c.toNat = 0x2019)) (h5 : c.toNat = 0x2013 ∨ c.toNat = 0x2014) :
    sanitize_char c = '-' := by
  unfold sanitize_char; rw [if_neg h1, if_neg h2, if_neg h3, if_neg h4, if_pos h5]

theorem sanitize_char_hellip (c : Char) (h1 : ¬(0x20 ≤ c.toNat ∧ c.toNat ≤ 0x7E))
    (h2 : ¬(0xE00 ≤ c.toNat ∧ c.toNat ≤ 0xE7F)) (h3 : ¬(c.toNat = 0x201C ∨ c.toNat = 0x201D))
    (h4 : ¬(c.toNat = 0x2018 ∨ c.toNat = 0x2019)) (h5 : ¬(c.toNat = 0x2013 ∨ c.toNat = 0x2014))
    (h6 : c.toNat = 0x2026) : sanitize_char c = '.' := by
  unfold sanitize_char; rw [if_neg h1, if_neg h2, if_neg h3, if_neg h4, if_neg h5, if_pos h6]

theorem sanitize_char_control (c : Char) (h1 : ¬(0x20 ≤ c.toNat ∧ c.toNat ≤ 0x7E))
    (h2 : ¬(0xE00 ≤ c.toNat ∧ c.toNat ≤ 0xE7F)) (h3 : ¬(c.toNat = 0x201C ∨ c.toNat = 0x201D))
    (h4 : ¬(c.toNat = 0x2018 ∨ c.toNat = 0x2019)) (h5 : ¬(c.toNat = 0x2013 ∨ c.toNat = 0x2014))
    (h6 : ¬c.toNat = 0x2026) (h7 : c.toNat ≤ 0x1F ∨ c.toNat = 0x7F) : sanitize_char c = ' ' := by
  unfold sanitize_char
  rw [if_neg h1, if_neg h2, if_neg h3, if_neg h4, if_neg h5, if_neg h6, if_pos h7]

theorem sanitize_char_other (c : Char) (h1 : ¬(0x20 ≤ c.toNat ∧ c.toNat ≤ 0x7E))
    (h2 : ¬(0xE00 ≤ c.toNat ∧ c.toNat ≤ 0xE7F)) (h3 : ¬(c.toNat = 0x201C ∨ c.toNat = 0x201D))
    (h4 : ¬(c.toNat = 0x2018 ∨ c.toNat = 0x2019)) (h5 : ¬(c.toNat = 0x2013 ∨ c.toNat = 0x2014))
    (h6 : ¬c.toNat = 0x2026) (h7 : ¬(c.toNat ≤ 0x1F ∨ c.toNat = 0x7F)) : sanitize_char c = c := by
  unfold sanitize_char
  rw [if_neg h1, if_neg h2, if_neg h3, if_neg h4, if_neg h5, if_neg h6, if_neg h7]

theorem sanitize_char_idem (c : Char) :
    sanitize_char (sanitize_char c) = sanitize_char c := by
  by_cases h1 : 0x20 ≤ c.toNat ∧ c.toNat ≤ 0x7E
  · rw [sanitize_char_ascii c h1, sanitize_char_ascii c h1]
  by_cases h2 : 0xE00 ≤ c.toNat ∧ c.toNat ≤ 0xE7F
  · rw [sanitize_char_thai c h1 h2, sanitize_char_thai c h1 h2]
  by_cases h3 : c.toNat = 0x201C ∨ c.toNat = 0x201D
  · rw [sanitize_char_dquote c h1 h2 h3]; decide
  by_cases h4 : c.toNat = 0x2018 ∨ c.toNat = 0x2019
  · rw [sanitize_char_squote c h1 h2 h3 h4]; decide
  by_cases h5 : c.toNat = 0x2013 ∨ c.toNat = 0x2014
  · rw [sanitize_char_dash c h1 h2 h3 h4 h5]; decide
  by_cases h6 : c.toNat = 0x2026
  · rw [sanitize_char_hellip c h1 h2 h3 h4 h5 h6]; decide
  by_cases h7 : c.toNat ≤ 0x1F ∨ c.toNat = 0x7F
  · rw [sanitize_char_control c h1 h2 h3 h4 h5 h6 h7]; decide
  · rw [sanitize_char_other c h1 h2 h3 h4 h5 h6 h7,
      sanitize_char_other c h1 h2 h3 h4 h5 h6 h7]

/-- C8: the built-in formatter's sanitize is idempotent:
`sanitize(sanitize(s)) == sanitize(s)` for every string `s`. -/
theorem c8_sanitize_idempotent (s : String) : sanitize (sanitize s) = sanitize s := by
  unfold sanitize
  rw [toList_asString, List.map_map]
  exact congrArg List.asString
    (List.map_congr_left fun c _ => Function.comp_apply.trans (sanitize_char_idem c))

/-- C9: sanitize is total and maps character-for-character.  For every string
the character count is preserved and each character is replaced by exactly one
character: ASCII printable and the Thai block pass through unchanged, smart
quotes map to ASCII quotes, smart dashes to a hyphen, the horizontal ellipsis
to a period, remaining ASCII control characters to a space, and every other
Unicode character passes through unchanged. -/
theorem c9_sanitize_char_for_char :
    (∀ s : String, (sanitize s).toList.length = s.toList.length) ∧
    (∀ s : String, (sanitize s).toList = s.toList.map sanitize_char) ∧
    (∀ c : Char, 0x20 ≤ c.toNat ∧ c.toNat ≤ 0x7E → sanitize_char c = c) ∧
    (∀ c : Char, 0xE00 ≤ c.toNat ∧ c.toNat ≤ 0xE7F → sanitize_char c = c) ∧
    (∀ c : Char, c.toNat = 0x201C ∨ c.toNat = 0x201D → sanitize_char c = '"') ∧
    (∀ c : Char, c.toNat = 0x2018 ∨ c.toNat = 0x2019 → sanitize_char c = Char.ofNat 0x27) ∧
    (∀ c : Char, c.toNat = 0x2013 ∨ c.toNat = 0x2014 → sanitize_char c = '-') ∧
    (sanitize_char (Char.ofNat 0x2026) = '.') ∧
    (∀ c : Char, (c.toNat ≤ 0x1F ∨ c.toNat = 0x7F) → sanitize_char c = ' ') ∧
    (∀ c : Char, ¬(c.toNat ≤ 0x1F ∨ c.toNat = 0x7F) →
      ¬(c.toNat = 0x201C ∨ c.toNat = 0x201D) → ¬(c.toNat = 0x2018 ∨ c.toNat = 0x2019) →
      ¬(c.toNat = 0x2013 ∨ c.toNat = 0x2014) → ¬c.toNat = 0x2026 → sanitize_char c = c) := by
  refine ⟨fun s => ?_, fun s => ?_, fun c h => sanitize_char_ascii c h,
    fun c h => ?_, fun c h => ?_, fun c h => ?_, fun c h => ?_, by decide,
    fun c h => ?_, fun c h7 h3 h4 h5 h6 => ?_⟩
  · unfold sanitize; rw [toList_asString, List.length_map]
  · unfold sanitize; rw [toList_asString]
  · exact sanitize_char_thai c (by omega) h
  · exact sanitize_char_dquote c (by omega) (by omega) h
  · exact sanitize_char_squote c (by omega) (by omega) (by omega) h
  · exact sanitize_char_dash c (by omega) (by omega) (by omega) (by omega) h
  · refine sanitize_char_control c (by omega) (by omega) (by omega) (by omega)
      (by omega) (by omega) h
  · by_cases h1 : 0x20 ≤ c.toNat ∧ c.toNat ≤ 0x7E
    · exact sanitize_char_ascii c h1
    by_cases h2 : 0xE00 ≤ c.toNat ∧ c.toNat ≤ 0xE7F
    · exact sanitize_char_thai c h1 h2
    exact sanitize_char_other c h1 h2 h3 h4 h5 h6 h7

/-- C9 witness: the per-character clauses of `c9_sanitize_char_for_char`
evaluated at concrete characters. -/
theorem c9_sanitize_char_for_char_witness :
    sanitize_char 'A' = 'A' ∧ sanitize_char (Char.ofNat 0xE01) = Char.ofNat 0xE01 ∧
    sanitize_char (Char.ofNat 0x201C) = '"' ∧
    sanitize_char (Char.ofNat 0x2018) = Char.ofNat 0x27 ∧
    sanitize_char (Char.ofNat 0x2014) = '-' ∧
    sanitize_char (Char.ofNat 0x0007) = ' ' ∧
    sanitize_char (Char.ofNat 0x4E2D) = Char.ofNat 0x4E2D ∧
    (sanitize "a").toList.length = ("a" : String).toList.length :=
  ⟨c9_sanitize_char_for_char.2.2.1 'A' (by decide),
   c9_sanitize_char_for_char.2.2.2.1 (Char.ofNat 0xE01) (by decide),
   c9_sanitize_char_for_char.2.2.2.2.1 (Char.ofNat 0x201C) (by decide),
   c9_sanitize_char_for_char.2.2.2.2.2.1 (Char.ofNat 0x2018) (by decide),
   c9_sanitize_char_for_char.2.2.2.2.2.2.1 (Char.ofNat 0x2014) (by decide),
   c9_sanitize_char_for_char.2.2.2.2.2.2.2.2.1 (Char.ofNat 0x0007) (by decide),
   c9_sanitize_char_for_char.2.2.2.2.2.2.2.2.2 (Char.ofNat 0x4E2D) (by decide)
     (by decide) (by decide) (by decide) (by decide),
   c9_sanitize_char_for_char.1 "a"⟩

/-- C7: the column-width derivation: `column_width(0)` is the configured
minimum column width; for `n ≥ 1`, `column_width(n) = content_width / n`, so
`column_width(n) * n` equals (hence never exceeds) the content width; and for
the default configuration (page width 210, left/right margins 20),
`column_width(5) = 34`. -/
theorem c7_column_width :
    (∀ cfg : PdfLayoutConfig, cfg.calculate_column_width 0 = cfg.min_column_width) ∧
    (∀ (cfg : PdfLayoutConfig) (n : Nat), 1 ≤ n →
      cfg.calculate_column_width n = cfg.content_width / (n : ℚ) ∧
      cfg.calculate_column_width n * (n : ℚ) = cfg.content_width ∧
      cfg.calculate_column_width n * (n : ℚ) ≤ cfg.content_width) ∧
    PdfLayoutConfig.default.calculate_column_width 5 = 34 := by
  refine ⟨fun cfg => rfl, fun cfg n hn => ?_,
    by norm_num [PdfLayoutConfig.calculate_column_width, PdfLayoutConfig.content_width,
      PdfLayoutConfig.default, PageSize.a4, Margins.default]⟩
  have hq : (n : ℚ) ≠ 0 := Nat.cast_ne_zero.mpr (by omega)
  unfold PdfLayoutConfig.calculate_column_width
  rw [if_neg (by omega : ¬n = 0)]
  exact ⟨rfl, div_mul_cancel₀ _ hq, le_of_eq (div_mul_cancel₀ _ hq)⟩

/-- C7 witness: the `n ≥ 1` clause of `c7_column_width` evaluated at the
default configuration with five columns. -/
theorem c7_column_width_witness :
    PdfLayoutConfig.default.calculate_column_width 5 =
      PdfLayoutConfig.default.content_width / (5 : ℚ) ∧
    PdfLayoutConfig.default.calculate_column_width 5 * (5 : ℚ) =
      PdfLayoutConfig.default.content_width ∧
    PdfLayoutConfig.default.calculate_column_width 5 * (5 : ℚ) ≤
      PdfLayoutConfig.default.content_width :=
  c7_column_width.2.1 PdfLayoutConfig.default 5 (by decide)

/-- C6: explicit column metadata covering index `i` decides alignment —
right-aligned exactly for Number, Currency and Percentage, whatever the
headers say; when metadata is absent or too short the header-keyword
heuristic decides, and without a keyword match (in particular beyond the
header list) the column is left-aligned. -/
theorem c6_alignment_priority :
    (∀ (r : PdfRenderer) (i : Nat) (headers : List String)
        (metadata : List ColumnMetadata) (cm : ColumnMetadata),
      metadata[i]? = some cm →
      (r.should_right_align i headers (some metadata) = true ↔
        cm.column_type = ColumnType.Number ∨ cm.column_type = ColumnType.Currency ∨
          cm.column_type = ColumnType.Percentage)) ∧
    (∀ (r : PdfRenderer) (i : Nat) (headers : List String)
        (metadata : List ColumnMetadata),
      metadata[i]? = none →
      r.should_right_align i headers (some metadata) =
        r.should_right_align i headers none) ∧
    (∀ (r : PdfRenderer) (i : Nat) (headers : List String) (h : String),
      headers[i]? = some h →
      r.should_right_align i headers none = is_numeric_header h) ∧
    (∀ (r : PdfRenderer) (i : Nat) (headers : List String),
      headers[i]? = none → r.should_right_align i headers none = false) := by
  refine ⟨fun r i hs m cm hm => ?_, fun r i hs m hm => ?_,
    fun r i hs h hh => ?_, fun r i hs hh => ?_⟩
  · rcases cm with ⟨ct, wh⟩
    cases ct <;> simp [PdfRenderer.should_right_align, hm, ColumnType.is_right_aligned]
  · simp [PdfRenderer.should_right_align, hm]
  · simp [PdfRenderer.should_right_align, hh]
  · simp [PdfRenderer.should_right_align, hh]

/-- C6 witness: `c6_alignment_priority` evaluated at a renderer whose single
column has Number metadata under a non-numeric header, and at the
heuristic fallback for the header `"Total Sales"`. -/
theorem c6_alignment_priority_witness :
    ((PdfRenderer.new PdfLayoutConfig.default LatinTextFormatter.new 1).should_right_align
        0 ["Description"] (some [ColumnMetadata.number]) = true ↔
      ColumnMetadata.number.column_type = ColumnType.Number ∨
        ColumnMetadata.number.column_type = ColumnType.Currency ∨
        ColumnMetadata.number.column_type = ColumnType.Percentage) ∧
    ((PdfRenderer.new PdfLayoutConfig.default LatinTextFormatter.new 1).should_right_align
        0 ["Total Sales"] none = is_numeric_header "Total Sales") ∧
    ((PdfRenderer.new PdfLayoutConfig.default LatinTextFormatter.new 1).should_right_align
        1 ["Total Sales"] none = false) ∧
    ((PdfRenderer.new PdfLayoutConfig.default LatinTextFormatter.new 1).should_right_align
        1 ["Code", "Total Sales"] (some [ColumnMetadata.number]) =
      (PdfRenderer.new PdfLayoutConfig.default LatinTextFormatter.new 1).should_right_align
        1 ["Code", "Total Sales"] none) :=
  ⟨c6_alignment_priority.1 _ 0 _ _ _ rfl,
   c6_alignment_priority.2.2.1 _ 0 _ _ rfl,
   c6_alignment_priority.2.2.2 _ 1 _ rfl,
   c6_alignment_priority.2.1 _ 1 _ _ rfl⟩

theorem filterMap_some_snd_enumFrom {α β : Type} (f : α → β) :
    ∀ (n : Nat) (l : List α),
      List.filterMap (fun x => some (f x.2)) (List.enumFrom n l) = List.map f l
  | _, [] => rfl
  | n, _ :: t => by
    simp only [List.enumFrom, List.filterMap_cons, List.map_cons]
    rw [filterMap_some_snd_enumFrom f (n + 1) t]

/-- Texts of a rendered header row. -/
theorem texts_of_render_headers (r : PdfRenderer) (headers : List String)
    (y : ℚ) :
    texts_of (r.render_headers headers y).1 = headers.map sanitize := by
  unfold texts_of PdfRenderer.render_headers
  rw [List.filterMap_append, List.filterMap_map]
  simp only [Function.comp_def, List.filterMap_cons, List.filterMap_nil,
    List.append_nil]
  exact filterMap_some_snd_enumFrom sanitize 0 headers

/-- Texts of a rendered data row. -/
theorem texts_of_render_row (r : PdfRenderer) (row : List String)
    (headers : List String) (md : Option (List ColumnMetadata)) (y : ℚ) :
    texts_of (r.render_row row headers md y) = row.map r.prepare_cell_text := by
  unfold texts_of PdfRenderer.render_row
  rw [List.filterMap_map]
  simp only [Function.comp_def]
  exact filterMap_some_snd_enumFrom r.prepare_cell_text 0 row

/-- C5: the header row emits exactly the sanitized header strings, with no
truncation applied, whatever the headers and the cursor position. -/
theorem c5_headers_never_truncated (r : PdfRenderer) (headers : List String)
    (y : ℚ) :
    texts_of (r.render_headers headers y).1 = headers.map sanitize :=
  texts_of_render_headers r headers y

/-- C2 (amended): every rendered data cell emits
`sanitize(truncate(cell, max_chars_for_width(column_width, body_size)))` —
the cell is truncated first and the truncated text sanitized, not the other
way round. -/
theorem c2_cell_truncate_then_sanitize (r : PdfRenderer) (row : List String)
    (headers : List String) (md : Option (List ColumnMetadata)) (y : ℚ) :
    texts_of (r.render_row row headers md y) =
      row.map fun cell =>
        sanitize (r.text_formatter.truncate cell
          (r.text_formatter.max_chars_for_width r.column_width
            r.config.typography.body_size)) :=
  texts_of_render_row r row headers md y

/-- C2 counterexample: with the default configuration and five columns
(character budget 16), the cell `"ab\ncd efghijklmnop"` renders as `"ab..."`
(the line feed is a mandatory wrap break, so truncation keeps only `"ab"`),
while truncating the sanitized cell — where the line feed has become a
space — yields `"ab cd..."`.  The emitted text is therefore not
`truncate(sanitize(cell), max_chars_for_width(column_width, body_size))`. -/
theorem c2_counterexample :
    ¬ texts_of ((PdfRenderer.new PdfLayoutConfig.default LatinTextFormatter.new 5).render_row
        ["ab\ncd efghijklmnop"] [] none 0) =
      [LatinTextFormatter.new.truncate (sanitize "ab\ncd efghijklmnop")
        (LatinTextFormatter.new.max_chars_for_width
          (PdfLayoutConfig.default.calculate_column_width 5)
          PdfLayoutConfig.default.typography.body_size)] := by
  have hcw : (PdfRenderer.new PdfLayoutConfig.default LatinTextFormatter.new 5).column_width
      = 34 := by
    norm_num [PdfRenderer.new, PdfLayoutConfig.calculate_column_width,
      PdfLayoutConfig.content_width, PdfLayoutConfig.default, PageSize.a4, Margins.default]
  have hmc : LatinTextFormatter.new.max_chars_for_width 34 10 = 16 := by
    norm_num [LatinTextFormatter.max_chars_for_width, LatinTextFormatter.new]
    rfl
  have hmc2 : LatinTextFormatter.new.max_chars_for_width
      (PdfLayoutConfig.default.calculate_column_width 5)
      PdfLayoutConfig.default.typography.body_size = 16 := by
    have : PdfLayoutConfig.default.calculate_column_width 5 = 34 := by
      norm_num [PdfLayoutConfig.calculate_column_width, PdfLayoutConfig.content_width,
        PdfLayoutConfig.default, PageSize.a4, Margins.default]
    rw [this]; exact hmc
  rw [texts_of_render_row, hmc2]
  simp only [List.map_cons, List.map_nil, PdfRenderer.prepare_cell_text, hcw]
  rw [show (PdfRenderer.new PdfLayoutConfig.default LatinTextFormatter.new 5).text_formatter
      = LatinTextFormatter.new from rfl,
    show (PdfRenderer.new PdfLayoutConfig.default
        LatinTextFormatter.new 5).config.typography.body_size = 10 from rfl, hmc]
  decide

theorem filterMap_const_none {α β : Type} :
    ∀ l : List α, List.filterMap (fun _ => (none : Option β)) l = []
  | [] => rfl
  | _ :: t => by
    rw [List.filterMap_cons]
    exact filterMap_const_none t

theorem footers_append (a b : List RenderEvent) :
    footers (a ++ b) = footers a ++ footers b :=
  List.filterMap_append a b _

theorem footers_render_title (r : PdfRenderer) (title : String) (y : ℚ) :
    footers (r.render_title title y).1 = [] := rfl

theorem footers_render_headers (r : PdfRenderer) (headers : List String)
    (y : ℚ) : footers (r.render_headers headers y).1 = [] := by
  unfold footers PdfRenderer.render_headers
  rw [List.filterMap_append, List.filterMap_map]
  rw [show ((fun e => match e with
      | RenderEvent.footer_ev n _ _ => some n
      | _ => none) ∘ fun p : Nat × String =>
        RenderEvent.text_ev (sanitize p.2)
          (r.config.margins.left + r.column_width * (p.1 : ℚ)) y
          r.config.typography.header_size true) = fun _ => none from rfl]
  rw [filterMap_const_none]
  rfl

theorem footers_render_row (r : PdfRenderer) (row : List String)
    (headers : List String) (md : Option (List ColumnMetadata)) (y : ℚ) :
    footers (r.render_row row headers md y) = [] := by
  unfold footers PdfRenderer.render_row
  rw [List.filterMap_map]
  exact filterMap_const_none row.enum

/-- The row-loop step when the cursor has crossed the effective bottom:
footer, new page, headers (when present), then the row at the fresh cursor. -/
theorem process_row_break (r : PdfRenderer) (headers : List String)
    (md : Option (List ColumnMetadata)) (evs : List RenderEvent)
    (st : PageState) (row : List String)
    (hc : st.current_y < r.config.effective_bottom) :
    process_row r headers md (evs, st) row =
      (evs ++ [r.render_page_number st.page_number, RenderEvent.new_page] ++
         (if headers ≠ [] then
           (r.render_headers headers r.config.content_start_y).1 else []) ++
         r.render_row row headers md (break_y r headers),
       ⟨break_y r headers - r.config.typography.line_height,
        st.page_number + 1⟩) := by
  unfold process_row break_y
  rw [if_pos hc]
  by_cases hh : headers ≠ []
  · simp [hh]
  · simp [hh]

/-- The row-loop step when the cursor is still at or above the effective
bottom: just the row at the incoming cursor. -/
theorem process_row_no_break (r : PdfRenderer) (headers : List String)
    (md : Option (List ColumnMetadata)) (evs : List RenderEvent)
    (st : PageState) (row : List String)
    (hc : ¬st.current_y < r.config.effective_bottom) :
    process_row r headers md (evs, st) row =
      (evs ++ r.render_row row headers md st.current_y,
       ⟨st.current_y - r.config.typography.line_height, st.page_number⟩) := by
  unfold process_row
  rw [if_neg hc]

theorem footers_break_block (r : PdfRenderer) (headers : List String) :
    footers (if headers ≠ [] then
      (r.render_headers headers r.config.content_start_y).1 else []) = [] := by
  by_cases hh : headers ≠ []
  · rw [if_pos hh]; exact footers_render_headers r headers _
  · rw [if_neg hh]; rfl

/-- Footers and page counter across one iteration of the row loop. -/
theorem process_row_footers (r : PdfRenderer) (headers : List String)
    (md : Option (List ColumnMetadata)) (evs : List RenderEvent)
    (st : PageState) (row : List String) :
    footers (process_row r headers md (evs, st) row).1 =
      footers evs ++
        (if st.current_y < r.config.effective_bottom then [st.page_number] else []) ∧
    (process_row r headers md (evs, st) row).2.page_number =
      st.page_number +
        (if st.current_y < r.config.effective_bottom then 1 else 0) := by
  by_cases hc : st.current_y < r.config.effective_bottom
  · rw [process_row_break r headers md evs st row hc, if_pos hc, if_pos hc]
    refine ⟨?_, rfl⟩
    rw [footers_append, footers_append, footers_append, footers_render_row,
      footers_break_block, List.append_nil, List.append_nil]
    rw [show footers [r.render_page_number st.page_number, RenderEvent.new_page] =
      [st.page_number] from rfl]
  · rw [process_row_no_break r headers md evs st row hc, if_neg hc, if_neg hc]
    refine ⟨?_, rfl⟩
    rw [footers_append, footers_render_row, List.append_nil]

/-- Invariant of the row loop: the footers emitted so far are exactly
`1, …, page_number − 1`. -/
theorem process_fold_footers (r : PdfRenderer) (headers : List String)
    (md : Option (List ColumnMetadata)) :
    ∀ (rows : List (List String)) (evs : List RenderEvent) (st : PageState),
      footers evs = List.range' 1 (st.page_number - 1) → 1 ≤ st.page_number →
      footers (rows.foldl (process_row r headers md) (evs, st)).1 =
        List.range' 1
          ((rows.foldl (process_row r headers md) (evs, st)).2.page_number - 1) ∧
      1 ≤ (rows.foldl (process_row r headers md) (evs, st)).2.page_number
  | [], _, _, h1, h2 => ⟨h1, h2⟩
  | row :: rows, evs, st, h1, h2 => by
    rw [List.foldl_cons]
    obtain ⟨hf, hp⟩ := process_row_footers r headers md evs st row
    have hnext := process_fold_footers r headers md rows
      (process_row r headers md (evs, st) row).1
      (process_row r headers md (evs, st) row).2 ?_ ?_
    · exact hnext
    · rw [hf, hp, h1]
      by_cases hc : st.current_y < r.config.effective_bottom
      · rw [if_pos hc, if_pos hc]
        have he : st.page_number + 1 - 1 = (st.page_number - 1) + 1 := by omega
        rw [he, List.range'_1_concat]
        have h3 : 1 + (st.page_number - 1) = st.page_number := by omega
        rw [h3]
      · rw [if_neg hc, if_neg hc, List.append_nil, Nat.add_zero]
    · rw [hp]; omega

/-- C4: the page-number footers written during an export are exactly the
strictly increasing sequence `1, 2, 3, …` up to the final page number: the
count starts at 1, grows by one at each page break, and a footer is written
on every finalized page, the last page included. -/
theorem c4_page_number_sequence (e : PdfExporter) (data : ExportData) :
    footers (e.export data) =
      List.range' 1 (e.export_run data).2.page_number ∧
    1 ≤ (e.export_run data).2.page_number := by
  unfold PdfExporter.export PdfExporter.export_run
  simp only []
  set r := PdfRenderer.new e.config e.text_formatter data.headers.length with hr
  set t := r.render_title data.title e.config.content_start_y with ht
  set h : List RenderEvent × ℚ :=
    if data.headers ≠ [] then r.render_headers data.headers t.2 else ([], t.2)
    with hh
  have hinit : footers (t.1 ++ h.1) = List.range' 1 ((1 : Nat) - 1) := by
    rw [footers_append, ht, footers_render_title, hh]
    by_cases hne : data.headers ≠ []
    · rw [if_pos hne, footers_render_headers]; rfl
    · rw [if_neg hne]; rfl
  obtain ⟨hf, hp⟩ := process_fold_footers r data.headers data.column_metadata
    data.rows (t.1 ++ h.1) ⟨h.2, 1⟩ hinit (le_refl 1)
  constructor
  · rw [footers_append, hf]
    rw [show footers [r.render_page_number
        (data.rows.foldl (process_row r data.headers data.column_metadata)
          (t.1 ++ h.1, ⟨h.2, 1⟩)).2.page_number] =
      [(data.rows.foldl (process_row r data.headers data.column_metadata)
          (t.1 ++ h.1, ⟨h.2, 1⟩)).2.page_number] from rfl]
    set pn := (data.rows.foldl (process_row r data.headers data.column_metadata)
      (t.1 ++ h.1, ⟨h.2, 1⟩)).2.page_number
    have he : pn = (pn - 1) + 1 := by omega
    conv_rhs => rw [he]
    rw [List.range'_1_concat]
    have h3 : 1 + (pn - 1) = pn := by omega
    rw [h3]
  · exact hp

theorem countP_const_false {α : Type} :
    ∀ l : List α, List.countP (fun _ => false) l = 0
  | [] => rfl
  | _ :: t => by
    rw [List.countP_cons]
    simp [countP_const_false t]

theorem npc_append (a b : List RenderEvent) :
    new_page_count (a ++ b) = new_page_count a + new_page_count b :=
  List.countP_append _ a b

theorem npc_render_row (r : PdfRenderer) (row : List String)
    (headers : List String) (md : Option (List ColumnMetadata)) (y : ℚ) :
    new_page_count (r.render_row row headers md y) = 0 := by
  unfold new_page_count PdfRenderer.render_row
  rw [List.countP_map]
  exact countP_const_false row.enum

theorem npc_render_headers (r : PdfRenderer) (headers : List String) (y : ℚ) :
    new_page_count (r.render_headers headers y).1 = 0 := by
  unfold new_page_count PdfRenderer.render_headers
  rw [List.countP_append, List.countP_map]
  rw [show ((fun e => match e with
      | RenderEvent.new_page => true
      | _ => false) ∘ fun p : Nat × String =>
        RenderEvent.text_ev (sanitize p.2)
          (r.config.margins.left + r.column_width * (p.1 : ℚ)) y
          r.config.typography.header_size true) = fun _ => false from rfl]
  rw [countP_const_false headers.enum]
  rfl

theorem npc_break_block (r : PdfRenderer) (headers : List String) :
    new_page_count (if headers ≠ [] then
      (r.render_headers headers r.config.content_start_y).1 else []) = 0 := by
  by_cases hh : headers ≠ []
  · rw [if_pos hh]; exact npc_render_headers r headers _
  · rw [if_neg hh]; rfl

/-- C3: within a page the vertical cursor only decreases — the title lowers
it by the title offset, the header block by the header offset, and each row
by exactly one line height — and one iteration of the row loop opens a new
page (footer, new page, headers, cursor reset) exactly when the incoming
cursor has crossed below the effective bottom margin, always before the row
is placed: the break events precede the row events, and when no break fires
the row is placed at the incoming cursor, which is still at or above the
effective bottom. -/
theorem c3_cursor_monotone_break_before_row (r : PdfRenderer)
    (headers : List String) (md : Option (List ColumnMetadata))
    (evs : List RenderEvent) (st : PageState) (row : List String)
    (title : String) (y : ℚ)
    (hlh : 0 < r.config.typography.line_height)
    (htb : 0 < r.config.spacing.title_bottom)
    (hhc : 0 < r.config.spacing.header_to_content) :
    (new_page_count (process_row r headers md (evs, st) row).1 =
      new_page_count evs +
        (if st.current_y < r.config.effective_bottom then 1 else 0)) ∧
    ((process_row r headers md (evs, st) row).1 =
      evs ++
        (if st.current_y < r.config.effective_bottom then
          [r.render_page_number st.page_number, RenderEvent.new_page] ++
            (if headers ≠ [] then
              (r.render_headers headers r.config.content_start_y).1 else [])
         else []) ++
        r.render_row row headers md (placement_y r headers st)) ∧
    ((process_row r headers md (evs, st) row).2.current_y =
      placement_y r headers st - r.config.typography.line_height) ∧
    ((process_row r headers md (evs, st) row).2.current_y <
      placement_y r headers st) ∧
    (¬st.current_y < r.config.effective_bottom →
      placement_y r headers st = st.current_y ∧
      r.config.effective_bottom ≤ placement_y r headers st) ∧
    ((r.render_title title y).2 < y) ∧
    ((r.render_headers headers y).2 < y) := by
  have hpt : (r.render_title title y).2 < y := sub_lt_self y htb
  have hph : (r.render_headers headers y).2 < y := sub_lt_self y hhc
  by_cases hc : st.current_y < r.config.effective_bottom
  · rw [process_row_break r headers md evs st row hc]
    have hpy : placement_y r headers st = break_y r headers := if_pos hc
    refine ⟨?_, ?_, by rw [hpy], ?_, fun h => absurd hc h, hpt, hph⟩
    · rw [if_pos hc, npc_append, npc_append, npc_append,
        npc_render_row, npc_break_block]
      rw [show new_page_count
        [r.render_page_number st.page_number, RenderEvent.new_page] = 1 from rfl]
    · rw [if_pos hc, hpy]
      simp [List.append_assoc]
    · rw [hpy]
      exact sub_lt_self _ hlh
  · rw [process_row_no_break r headers md evs st row hc]
    have hpy : placement_y r headers st = st.current_y := if_neg hc
    refine ⟨?_, ?_, by rw [hpy], ?_, fun _ => ⟨hpy, ?_⟩, hpt, hph⟩
    · rw [if_neg hc, npc_append, npc_render_row]
    · rw [if_neg hc, hpy, List.append_nil]
    · rw [hpy]
      exact sub_lt_self _ hlh
    · rw [hpy]
      exact not_lt.mp hc

/-- C3 witness: `c3_cursor_monotone_break_before_row` at the default
configuration with two columns, headers, a cursor of 100 mm and page 1. -/
theorem c3_cursor_monotone_break_before_row_witness :
    let r := PdfRenderer.new PdfLayoutConfig.default LatinTextFormatter.new 2
    let st : PageState := ⟨100, 1⟩
    let headers := ["Name", "Value"]
    let row := ["Item 1", "100"]
    (new_page_count (process_row r headers none ([], st) row).1 =
      new_page_count [] +
        (if st.current_y < r.config.effective_bottom then 1 else 0)) ∧
    ((process_row r headers none ([], st) row).1 =
      [] ++
        (if st.current_y < r.config.effective_bottom then
          [r.render_page_number st.page_number, RenderEvent.new_page] ++
            (if headers ≠ [] then
              (r.render_headers headers r.config.content_start_y).1 else [])
         else []) ++
        r.render_row row headers none (placement_y r headers st)) ∧
    ((process_row r headers none ([], st) row).2.current_y =
      placement_y r headers st - r.config.typography.line_height) ∧
    ((process_row r headers none ([], st) row).2.current_y <
      placement_y r headers st) ∧
    (¬st.current_y < r.config.effective_bottom →
      placement_y r headers st = st.current_y ∧
      r.config.effective_bottom ≤ placement_y r headers st) ∧
    ((r.render_title "Test Report" 50).2 < 50) ∧
    ((r.render_headers headers 50).2 < 50) :=
  c3_cursor_monotone_break_before_row
    (PdfRenderer.new PdfLayoutConfig.default LatinTextFormatter.new 2)
    ["Name", "Value"] none [] ⟨100, 1⟩ ["Item 1", "100"] "Test Report" 50
    (by decide) (by decide) (by decide)

theorem split_ch_ne_nil (sep : Char) : ∀ l : List Char, split_ch sep l ≠ []
  | [] => by simp [split_ch]
  | c :: rest => by
    simp only [split_ch]
    cases h : split_ch sep rest with
    | nil => simp
    | cons w ws => by_cases hc : c = sep <;> simp [hc]

theorem fill_lines_ne_nil (w : Nat) :
    ∀ (rest cur : List (List Char)), fill_lines w cur rest ≠ []
  | [], cur => by simp [fill_lines]
  | word :: rest, cur => by
    unfold fill_lines
    split_ifs
    · exact fill_lines_ne_nil w rest (cur ++ [word])
    · simp

theorem wrap_words_ne_nil (w : Nat) (words : List (List Char)) :
    wrap_words w words ≠ [] := by
  cases words with
  | nil => simp [wrap_words]
  | cons word rest => exact fill_lines_ne_nil w rest [word]

theorem wrap_ne_nil (w : Nat) (text : List Char) : wrap w text ≠ [] := by
  unfold wrap
  cases h : split_ch (Char.ofNat 10) text with
  | nil => exact absurd h (split_ch_ne_nil _ _)
  | cons line rest =>
    rw [List.flatMap_cons]
    intro hemp
    rcases List.append_eq_nil.mp hemp with ⟨h1, _⟩
    exact wrap_words_ne_nil w _ (List.map_eq_nil_iff.mp h1)

/-- C10: in the word-boundary truncation path, whenever `max_chars` exceeds
the ellipsis character count, the zero-available-width fallback and the
empty-wrap fallback are unreachable — the available width is at least one
and `wrap` never returns an empty list — so the result is always the trimmed
first wrapped line, with the ellipsis appended exactly when truncation
occurred (more than one wrapped line, or a first line shorter than the
input). -/
theorem c10_fallbacks_unreachable (f : LatinTextFormatter) (text : String)
    (max_chars : Nat) (h : f.ellipsis.toList.length < max_chars) :
    1 ≤ max_chars - f.ellipsis.toList.length ∧
    wrap (max_chars - f.ellipsis.toList.length) text.toList ≠ [] ∧
    f.truncate_with_textwrap text max_chars =
      (let wrapped := wrap (max_chars - f.ellipsis.toList.length) text.toList
       let first_line := trim_end (wrapped.headD [])
       if 1 < wrapped.length ∨ first_line.length < text.toList.length then
         (first_line ++ f.ellipsis.toList).asString
       else first_line.asString) := by
  refine ⟨by omega, wrap_ne_nil _ _, ?_⟩
  unfold LatinTextFormatter.truncate_with_textwrap
  rw [if_neg (by omega : ¬max_chars ≤ f.ellipsis.toList.length),
    if_neg (by omega : ¬max_chars - f.ellipsis.toList.length = 0),
    if_neg (wrap_ne_nil _ _)]

/-- C10 witness: `c10_fallbacks_unreachable` at the default formatter,
`"Hello World"` and budget 10. -/
theorem c10_fallbacks_unreachable_witness :
    1 ≤ 10 - LatinTextFormatter.new.ellipsis.toList.length ∧
    wrap (10 - LatinTextFormatter.new.ellipsis.toList.length)
      ("Hello World" : String).toList ≠ [] ∧
    LatinTextFormatter.new.truncate_with_textwrap "Hello World" 10 =
      (let wrapped := wrap (10 - LatinTextFormatter.new.ellipsis.toList.length)
        ("Hello World" : String).toList
       let first_line := trim_end (wrapped.headD [])
       if 1 < wrapped.length ∨
           first_line.length < ("Hello World" : String).toList.length then
         (first_line ++ LatinTextFormatter.new.ellipsis.toList).asString
       else first_line.asString) :=
  c10_fallbacks_unreachable LatinTextFormatter.new "Hello World" 10 (by decide)

theorem char_width_le_one (c : Char) : char_width c ≤ 1 := by
  unfold char_width
  split_ifs <;> omega

theorem word_width_single (c : Char) : word_width [c] = char_width c := by
  simp [word_width]

theorem split_ch_mem (sep : Char) :
    ∀ (l piece : List Char) (c : Char),
      piece ∈ split_ch sep l → c ∈ piece → c ∈ l
  | [], piece, c => by
    intro hp hc
    simp [split_ch] at hp
    subst hp
    simp at hc
  | a :: rest, piece, c => by
    intro hp hc
    cases h : split_ch sep rest with
    | nil => exact absurd h (split_ch_ne_nil sep rest)
    | cons w ws =>
      simp only [split_ch, h] at hp
      by_cases hs : a = sep
      · rw [if_pos hs] at hp
        rcases List.mem_cons.mp hp with h1 | h1
        · subst h1; simp at hc
        · exact List.mem_cons_of_mem a
            (split_ch_mem sep rest piece c (h ▸ h1) hc)
      · rw [if_neg hs] at hp
        rcases List.mem_cons.mp hp with h1 | h1
        · subst h1
          rcases List.mem_cons.mp hc with h2 | h2
          · exact h2 ▸ List.mem_cons_self a rest
          · exact List.mem_cons_of_mem a
              (split_ch_mem sep rest w c (h ▸ List.mem_cons_self w ws) h2)
        · exact List.mem_cons_of_mem a
            (split_ch_mem sep rest piece c (h ▸ List.mem_cons_of_mem w h1) hc)

theorem split_chunk_fst_width (w : Nat) :
    ∀ (l acc : List Char), word_width acc ≤ w →
      word_width (split_chunk w acc l).1 ≤ w
  | [], _, h => h
  | c :: rest, acc, h => by
    unfold split_chunk
    split_ifs with hif
    · exact split_chunk_fst_width w rest (acc ++ [c]) hif
    · exact h

theorem split_chunk_snd_len (w : Nat) :
    ∀ (l acc : List Char), (split_chunk w acc l).2.length ≤ l.length
  | [], _ => by simp [split_chunk]
  | c :: rest, acc => by
    unfold split_chunk
    split_ifs
    · exact le_trans (split_chunk_snd_len w rest (acc ++ [c])) (by simp)
    · simp

theorem split_chunk_snd_mem (w : Nat) :
    ∀ (l acc : List Char) (c : Char), c ∈ (split_chunk w acc l).2 → c ∈ l
  | [], _, c => by simp [split_chunk]
  | a :: rest, acc, c => by
    unfold split_chunk
    split_ifs
    · intro hm
      exact List.mem_cons_of_mem a (split_chunk_snd_mem w rest (acc ++ [a]) c hm)
    · exact id

theorem split_chunk_fst_mem (w : Nat) :
    ∀ (l acc : List Char) (c : Char),
      c ∈ (split_chunk w acc l).1 → c ∈ acc ∨ c ∈ l
  | [], _, _ => fun h => Or.inl h
  | a :: rest, acc, c => by
    unfold split_chunk
    split_ifs
    · intro hm
      rcases split_chunk_fst_mem w rest (acc ++ [a]) c hm with h | h
      · rcases List.mem_append.mp h with h1 | h1
        · exact Or.inl h1
        · exact Or.inr ((List.mem_singleton.mp h1) ▸ List.mem_cons_self a rest)
      · exact Or.inr (List.mem_cons_of_mem a h)
    · exact fun h => Or.inl h

theorem chunk_go_width (w : Nat) (hw : 1 ≤ w) :
    ∀ (fuel : Nat) (l : List Char), l.length ≤ fuel →
      ∀ ch ∈ chunk_go w fuel l, word_width ch ≤ w := by
  intro fuel
  induction fuel with
  | zero =>
    intro l hl ch hch
    have hnil : l = [] := List.eq_nil_of_length_eq_zero (by omega)
    subst hnil
    simp [chunk_go] at hch
  | succ n ih =>
    intro l hl ch hch
    cases l with
    | nil => simp [chunk_go] at hch
    | cons c rest =>
      rw [show chunk_go w (n + 1) (c :: rest) =
        (split_chunk w [c] rest).1 :: chunk_go w n (split_chunk w [c] rest).2
        from rfl] at hch
      rcases List.mem_cons.mp hch with h | h
      · subst h
        refine split_chunk_fst_width w rest [c] ?_
        rw [word_width_single]
        exact le_trans (char_width_le_one c) hw
      · refine ih (split_chunk w [c] rest).2 ?_ ch h
        have h2 := split_chunk_snd_len w rest [c]
        simp only [List.length_cons] at hl
        omega

theorem chunk_go_mem (w : Nat) :
    ∀ (fuel : Nat) (l ch : List Char) (c : Char),
      ch ∈ chunk_go w fuel l → c ∈ ch → c ∈ l := by
  intro fuel
  induction fuel with
  | zero =>
    intro l ch c hch hc
    cases l with
    | nil => simp [chunk_go] at hch
    | cons a rest =>
      rw [show chunk_go w 0 (a :: rest) = [a :: rest] from rfl] at hch
      exact (List.mem_singleton.mp hch) ▸ hc
  | succ n ih =>
    intro l ch c hch hc
    cases l with
    | nil => simp [chunk_go] at hch
    | cons a rest =>
      rw [show chunk_go w (n + 1) (a :: rest) =
        (split_chunk w [a] rest).1 :: chunk_go w n (split_chunk w [a] rest).2
        from rfl] at hch
      rcases List.mem_cons.mp hch with h | h
      · subst h
        rcases split_chunk_fst_mem w rest [a] c hc with h1 | h1
        · exact (List.mem_singleton.mp h1) ▸ List.mem_cons_self a rest
        · exact List.mem_cons_of_mem a h1
      · exact List.mem_cons_of_mem a
          (split_chunk_snd_mem w rest [a] c (ih _ _ _ h hc))

theorem chunk_word_width (w : Nat) (hw : 1 ≤ w) (word : List Char) :
    ∀ ch ∈ chunk_word w word, word_width ch ≤ w :=
  chunk_go_width w hw word.length word (le_refl _)

theorem chunk_word_mem (w : Nat) (word ch : List Char) (c : Char) :
    ch ∈ chunk_word w word → c ∈ ch → c ∈ word :=
  chunk_go_mem w word.length word ch c

theorem fill_lines_width (w : Nat) :
    ∀ (rest cur : List (List Char)), line_width cur ≤ w →
      (∀ wd ∈ rest, word_width wd ≤ w) →
      ∀ ln ∈ fill_lines w cur rest, line_width ln ≤ w
  | [], cur, hcur, _, ln, hln => by
    rw [show fill_lines w cur [] = [cur] from rfl] at hln
    exact (List.mem_singleton.mp hln) ▸ hcur
  | word :: rest, cur, hcur, hrest, ln, hln => by
    unfold fill_lines at hln
    split_ifs at hln with hif
    · exact fill_lines_width w rest (cur ++ [word]) hif
        (fun wd h => hrest wd (List.mem_cons_of_mem _ h)) ln hln
    · rcases List.mem_cons.mp hln with h | h
      · exact h ▸ hcur
      · refine fill_lines_width w rest [word] ?_
          (fun wd h => hrest wd (List.mem_cons_of_mem _ h)) ln h
        have hww := hrest word (List.mem_cons_self _ _)
        simp [line_width]
        omega

theorem fill_lines_mem (w : Nat) :
    ∀ (rest cur ln : List (List Char)) (wd : List Char),
      ln ∈ fill_lines w cur rest → wd ∈ ln → wd ∈ cur ∨ wd ∈ rest
  | [], cur, ln, wd => fun hln hwd => by
    rw [show fill_lines w cur [] = [cur] from rfl] at hln
    exact Or.inl ((List.mem_singleton.mp hln) ▸ hwd)
  | word :: rest, cur, ln, wd => fun hln hwd => by
    unfold fill_lines at hln
    split_ifs at hln with hif
    · rcases fill_lines_mem w rest (cur ++ [word]) ln wd hln hwd with h | h
      · rcases List.mem_append.mp h with h1 | h1
        · exact Or.inl h1
        · exact Or.inr ((List.mem_singleton.mp h1) ▸ List.mem_cons_self word rest)
      · exact Or.inr (List.mem_cons_of_mem word h)
    · rcases List.mem_cons.mp hln with h | h
      · exact Or.inl (h ▸ hwd)
      · rcases fill_lines_mem w rest [word] ln wd h hwd with h1 | h1
        · exact Or.inr ((List.mem_singleton.mp h1) ▸ List.mem_cons_self word rest)
        · exact Or.inr (List.mem_cons_of_mem word h1)

theorem wrap_words_width (w : Nat) (words : List (List Char))
    (h : ∀ wd ∈ words, word_width wd ≤ w) :
    ∀ ln ∈ wrap_words w words, line_width ln ≤ w := by
  cases words with
  | nil =>
    intro ln hln
    rw [show wrap_words w [] = [[]] from rfl] at hln
    rw [List.mem_singleton.mp hln]
    simp [line_width]
  | cons word rest =>
    refine fill_lines_width w rest [word] ?_
      (fun wd hw => h wd (List.mem_cons_of_mem _ hw))
    have := h word (List.mem_cons_self _ _)
    simp [line_width]
    omega

theorem wrap_words_mem (w : Nat) (words ln : List (List Char))
    (wd : List Char) (hln : ln ∈ wrap_words w words) (hwd : wd ∈ ln) :
    wd ∈ words := by
  cases words with
  | nil =>
    rw [show wrap_words w [] = [[]] from rfl] at hln
    rw [List.mem_singleton.mp hln] at hwd
    simp at hwd
  | cons word rest =>
    rcases fill_lines_mem w rest [word] ln wd hln hwd with h | h
    · exact (List.mem_singleton.mp h) ▸ List.mem_cons_self word rest
    · exact List.mem_cons_of_mem word h

theorem render_line_length :
    ∀ ws : List (List Char),
      (render_line ws).length = (ws.map List.length).sum + (ws.length - 1)
  | [] => rfl
  | [w] => by simp [render_line]
  | w :: w' :: ws => by
    have ih := render_line_length (w' :: ws)
    simp only [render_line] at ih ⊢
    simp only [List.length_append, List.length_cons, List.map_cons,
      List.sum_cons] at ih ⊢
    omega

theorem word_length_eq_width :
    ∀ wd : List Char, (∀ c ∈ wd, char_width c = 1) →
      wd.length = word_width wd
  | [], _ => rfl
  | c :: t, h => by
    have h1 : char_width c = 1 := h c (List.mem_cons_self c t)
    have h2 := word_length_eq_width t (fun x hx => h x (List.mem_cons_of_mem c hx))
    simp only [word_width, List.map_cons, List.sum_cons, List.length_cons]
    simp only [word_width] at h2
    omega

theorem render_line_length_le (w : Nat) (ln : List (List Char))
    (hw : line_width ln ≤ w)
    (hchars : ∀ wd ∈ ln, ∀ c ∈ wd, char_width c = 1) :
    (render_line ln).length ≤ w := by
  rw [render_line_length]
  have hsum : (ln.map List.length).sum = (ln.map word_width).sum := by
    have : ln.map List.length = ln.map word_width :=
      List.map_congr_left fun wd hwd => word_length_eq_width wd (hchars wd hwd)
    rw [this]
  unfold line_width at hw
  omega

/-- Each line produced by the wrap model of a text of width-one characters
has at most `w` characters. -/
theorem wrap_line_length_le (w : Nat) (hw : 1 ≤ w) (text : List Char)
    (hchars : ∀ c ∈ text, char_width c = 1) :
    ∀ ln ∈ wrap w text, ln.length ≤ w := by
  intro ln hln
  unfold wrap at hln
  rcases List.mem_flatMap.mp hln with ⟨line, hline, hmem⟩
  rcases List.mem_map.mp hmem with ⟨ln', hln', rfl⟩
  have hline_chars : ∀ c ∈ line, char_width c = 1 := fun c hc =>
    hchars c (split_ch_mem _ text line c hline hc)
  have hwords_width :
      ∀ wd ∈ (split_ch ' ' line).flatMap (chunk_word w), word_width wd ≤ w := by
    intro wd hwd
    rcases List.mem_flatMap.mp hwd with ⟨word0, _, hch⟩
    exact chunk_word_width w hw word0 wd hch
  have hwords_chars :
      ∀ wd ∈ (split_ch ' ' line).flatMap (chunk_word w),
        ∀ c ∈ wd, char_width c = 1 := by
    intro wd hwd c hc
    rcases List.mem_flatMap.mp hwd with ⟨word0, hw0, hch⟩
    exact hline_chars c
      (split_ch_mem ' ' line word0 c hw0 (chunk_word_mem w word0 wd c hch hc))
  have hlw : line_width ln' ≤ w :=
    wrap_words_width w _ hwords_width ln' hln'
  exact render_line_length_le w ln' hlw fun wd hwd =>
    hwords_chars wd (wrap_words_mem w _ ln' wd hln' hwd)

theorem headD_mem {α : Type} (l : List α) (d : α) (h : l ≠ []) :
    l.headD d ∈ l := by
  cases l with
  | nil => exact absurd rfl h
  | cons a t => exact List.mem_cons_self a t

theorem length_dropWhile_le {α : Type} (p : α → Bool) :
    ∀ l : List α, (l.dropWhile p).length ≤ l.length
  | [] => le_refl _
  | a :: t => by
    rw [List.dropWhile_cons]
    split_ifs
    · exact le_trans (length_dropWhile_le p t) (by simp)
    · simp

theorem trim_end_length_le (l : List Char) : (trim_end l).length ≤ l.length := by
  unfold trim_end
  rw [List.length_reverse]
  calc (l.reverse.dropWhile is_rust_whitespace).length
      ≤ l.reverse.length := length_dropWhile_le _ _
    _ = l.length := List.length_reverse l

/-- C1 (amended): the built-in formatter's truncate stays within the
character budget in simple mode for every string, and in the default
word-boundary mode for every string whose characters all have display width
one, certified by `char_width c = 1` — printable ASCII and spacing Thai; the
predicate returns 1 only where `unicode-width` certainly measures one
column, so the hypothesis never admits a zero-display-width character.  The
original unrestricted claim fails in word-boundary mode for strings
containing zero-display-width characters — combining marks such as U+0301
or the Thai vowel U+0E31 — see the counterexample. -/
theorem c1_truncate_budget_amended :
    (∀ (s : String) (max_chars : Nat), 1 ≤ max_chars →
      ((LatinTextFormatter.new.with_truncation_mode
          TruncationMode.Simple).truncate s max_chars).toList.length ≤
        max_chars) ∧
    (∀ (s : String) (max_chars : Nat), 1 ≤ max_chars →
      (∀ c ∈ s.toList, char_width c = 1) →
      (LatinTextFormatter.new.truncate s max_chars).toList.length ≤
        max_chars) := by
  constructor
  · intro s mc _
    have ht : (LatinTextFormatter.new.with_truncation_mode
        TruncationMode.Simple).truncate s mc =
      (if s.toList.length ≤ mc then s
       else if mc ≤ 3 then (s.toList.take mc).asString
       else (s.toList.take (mc - 3) ++ ("..." : String).toList).asString) := rfl
    rw [ht]
    split_ifs with h1 h2
    · exact h1
    · rw [toList_asString, List.length_take]
      exact Nat.min_le_left _ _
    · rw [toList_asString, List.length_append, List.length_take]
      rw [show ("..." : String).toList.length = 3 from rfl]
      have := Nat.min_le_left (mc - 3) s.toList.length
      omega
  · intro s mc _ hchars
    have ht : LatinTextFormatter.new.truncate s mc =
      (if s.toList.length ≤ mc then s
       else if mc ≤ 3 then (s.toList.take mc).asString
       else if mc - 3 = 0 then "..."
       else if wrap (mc - 3) s.toList = [] then "..."
       else if 1 < (wrap (mc - 3) s.toList).length ∨
           (trim_end ((wrap (mc - 3) s.toList).headD [])).length <
             s.toList.length then
         (trim_end ((wrap (mc - 3) s.toList).headD []) ++
           ("..." : String).toList).asString
       else (trim_end ((wrap (mc - 3) s.toList).headD [])).asString) := rfl
    rw [ht]
    split_ifs with h1 h2 h3 hnil h4
    · exact h1
    · rw [toList_asString, List.length_take]
      exact Nat.min_le_left _ _
    · exact (by omega : (3 : Nat) ≤ mc)
    · exact absurd hnil (wrap_ne_nil _ _)
    · have hfl : (trim_end ((wrap (mc - 3) s.toList).headD [])).length ≤ mc - 3 :=
        le_trans (trim_end_length_le _)
          (wrap_line_length_le (mc - 3) (by omega) s.toList hchars _
            (headD_mem _ [] (wrap_ne_nil _ _)))
      rw [toList_asString, List.length_append]
      rw [show ("..." : String).toList.length = 3 from rfl]
      omega
    · have hfl : (trim_end ((wrap (mc - 3) s.toList).headD [])).length ≤ mc - 3 :=
        le_trans (trim_end_length_le _)
          (wrap_line_length_le (mc - 3) (by omega) s.toList hchars _
            (headD_mem _ [] (wrap_ne_nil _ _)))
      rw [toList_asString]
      omega

/-- C1 counterexample: in the default word-boundary mode the budget can be
exceeded.  The 21-character string `a` followed by twenty combining acute
accents (U+0301, display width zero) is a single word of display width one,
so it wraps onto a single line and is returned whole: 21 characters for a
budget of 10. -/
theorem c1_counterexample :
    ¬ ((LatinTextFormatter.new.truncate
        (('a' :: List.replicate 20 (Char.ofNat 0x301)).asString)
        10).toList.length ≤ 10) := by
  decide

/-- C1 witness: `c1_truncate_budget_amended` at `"Hello World Test"` with
budget 10 in both modes. -/
theorem c1_truncate_budget_amended_witness :
    (((LatinTextFormatter.new.with_truncation_mode
        TruncationMode.Simple).truncate "Hello World Test" 10).toList.length ≤ 10) ∧
    ((LatinTextFormatter.new.truncate "Hello World Test" 10).toList.length ≤ 10) :=
  ⟨c1_truncate_budget_amended.1 "Hello World Test" 10 (by decide),
   c1_truncate_budget_amended.2 "Hello World Test" 10 (by decide) (by decide)⟩

end ExportService
